import Mathlib

/-!
Verification of the org-zotero reconciliation engine (`src/main.rs`).

The Rust source is shallowly embedded: file contents and lines are
modelled as `String` / `List Char`, SQLite rows as structures carrying the
selected columns, the `HashMap` accumulators as association lists, and the
external collaborators (tera templating, the `rg` child process, the
filesystem, the `slug` and `md5` crates) as explicit parameters or
outcome-typed inputs at their interface boundary, exactly as the code
consumes them.
-/

namespace OrgZotero

/-- The set of characters Rust's `char::is_whitespace` (Unicode `White_Space`)
accepts; `str::trim` strips these from both ends. -/
def isRustWhitespace (c : Char) : Bool :=
  c.val ∈ ([0x09, 0x0a, 0x0b, 0x0c, 0x0d, 0x20, 0x85, 0xa0, 0x1680,
    0x2000, 0x2001, 0x2002, 0x2003, 0x2004, 0x2005, 0x2006, 0x2007,
    0x2008, 0x2009, 0x200a, 0x2028, 0x2029, 0x202f, 0x205f, 0x3000] : List UInt32)

/-- Rust `str::trim`: drop leading and trailing whitespace. -/
def trimL (l : List Char) : List Char :=
  ((l.dropWhile isRustWhitespace).reverse.dropWhile isRustWhitespace).reverse

/-- Rust `str::trim` lifted to `String`. -/
def rustTrim (s : String) : String :=
  ⟨trimL s.data⟩

/-- Split a character list at every `'\n'`: returns the current (last,
unterminated) segment plus the list of segments that were terminated by a
`'\n'`.  Helper for `splitNl`. -/
def splitNlAux : List Char → List Char × List (List Char)
  | [] => ([], [])
  | c :: rest =>
    let (cur, rs) := splitNlAux rest
    if c = '\n' then ([], cur :: rs) else (c :: cur, rs)

/-- Split on `'\n'` (the semantics of Rust's `str::split('\n')`): always a
non-empty list of `'\n'`-free segments. -/
def splitNl (s : List Char) : List (List Char) :=
  (splitNlAux s).1 :: (splitNlAux s).2

/-- Strip one trailing `'\r'`, as Rust's `str::lines` does on every segment
that was terminated by a `'\n'` (turning `"\r\n"` endings into plain line
breaks). -/
def stripCr (l : List Char) : List Char :=
  if l.getLast? = some '\r' then l.dropLast else l

/-- The final, unterminated segment of a line split: kept verbatim (no
`'\r'` stripping) unless it is empty, in which case it is dropped —
Rust's `str::lines` yields no final empty line for `'\n'`-terminated
text. -/
def lastSegment : Option (List Char) → List (List Char)
  | some l => if l = [] then [] else [l]
  | none => []

/-- Rust `str::lines` on a character list: split at `'\n'`, strip a `'\r'`
left at the end of every `'\n'`-terminated segment, and drop the final
segment when it is empty (i.e. when the text ends with a line break or is
empty). -/
def rustLinesL (s : List Char) : List (List Char) :=
  (splitNl s).dropLast.map stripCr ++ lastSegment (splitNl s).getLast?

/-- Rust `str::lines` lifted to `String`. -/
def rustLines (s : String) : List String :=
  (rustLinesL s.data).map (fun l => ⟨l⟩)

/-- Rust `Vec<&str>::join("\n")`. -/
def joinNl : List (List Char) → List Char
  | [] => []
  | [l] => l
  | l :: ls => l ++ '\n' :: joinNl ls

/-- The fixed delimiter separating user content from generated content
(`main.rs` line 348: `let highlight_marker = "* zotero:highlights";`). -/
def highlight_marker : List Char :=
  ['*', ' ', 'z', 'o', 't', 'e', 'r', 'o', ':', 'h', 'i', 'g', 'h', 'l',
   'i', 'g', 'h', 't', 's']

/-- The Section-Preserving Editor, `edit_file` (`main.rs` 340–362), on the
file content it read (the filesystem read/write at its boundary is
abstracted away; the function below is the pure content transformation it
performs): split the content into lines, find the first line that trims to
the delimiter marker (falling back to the number of lines when absent, as
`position(..).unwrap_or(lines.len())` does), join the lines strictly before
that index with `'\n'`, append a single `'\n'` when the prefix or the new
generated content is non-empty, then append the new generated content. -/
def edit_fileL (content hl_content : List Char) : List Char :=
  let lines := rustLinesL content
  let idx := lines.findIdx (fun l => trimL l == highlight_marker)
  let pre := joinNl (lines.take idx)
  (if pre ≠ [] ∨ hl_content ≠ [] then pre ++ ['\n'] else pre) ++ hl_content

/-- `edit_file` lifted to `String` (the shape the Rust code manipulates). -/
def edit_file (content hl_content : String) : String :=
  ⟨edit_fileL content.data hl_content.data⟩

/-! ## Record Extractor: rows and entities (`main.rs` 14–95, 163–216) -/

/-- A civil UTC timestamp, the payload of `chrono::DateTime<Utc>` at the
resolution this program uses. -/
structure UtcDateTime where
  year : Nat
  month : Nat
  day : Nat
  hour : Nat
  minute : Nat
  second : Nat
deriving DecidableEq, Repr

/-- A digit list read as a decimal number. -/
def digitsToNat (l : List Char) : Nat :=
  l.foldl (fun n c => n * 10 + (c.toNat - 48)) 0

/-- `parse_date` (`main.rs` 43–60): empty input gives no value; otherwise
try `YYYY-MM-DD`, then `YYYY-MM-DD HH:MM:SS`; anything else gives no value.
chrono's exact calendar validation (month lengths, leap years) is abstracted
to digit-shape plus simple range checks; no claim depends on it. -/
def parse_date (s : String) : Option UtcDateTime :=
  match s.data with
  | [] => none
  | [y1, y2, y3, y4, '-', m1, m2, '-', d1, d2] =>
    if [y1, y2, y3, y4, m1, m2, d1, d2].all Char.isDigit then
      let m := digitsToNat [m1, m2]
      let d := digitsToNat [d1, d2]
      if 1 ≤ m ∧ m ≤ 12 ∧ 1 ≤ d ∧ d ≤ 31 then
        some ⟨digitsToNat [y1, y2, y3, y4], m, d, 0, 0, 0⟩
      else none
    else none
  | [y1, y2, y3, y4, '-', m1, m2, '-', d1, d2, ' ',
     h1, h2, ':', n1, n2, ':', s1, s2] =>
    if [y1, y2, y3, y4, m1, m2, d1, d2, h1, h2, n1, n2, s1, s2].all Char.isDigit then
      let m := digitsToNat [m1, m2]
      let d := digitsToNat [d1, d2]
      let hh := digitsToNat [h1, h2]
      let mm := digitsToNat [n1, n2]
      let ss := digitsToNat [s1, s2]
      if 1 ≤ m ∧ m ≤ 12 ∧ 1 ≤ d ∧ d ≤ 31 ∧ hh ≤ 23 ∧ mm ≤ 59 ∧ ss ≤ 59 then
        some ⟨digitsToNat [y1, y2, y3, y4], m, d, hh, mm, ss⟩
      else none
    else none
  | _ => none

/-- One row of the papers query (`query_papers`, `main.rs` 98–150): the
seven selected columns in order. -/
structure PaperRow where
  paperID : Int
  title : String
  url : Option String
  dateAdded : String
  zotero_uri : String
  publication_date : Option String
  authors : Option String
deriving DecidableEq, Repr

/-- The `Paper` entity (`main.rs` 21–33). -/
structure Paper where
  id : String
  has_url : Bool
  roam_ref : String
  source_url : String
  zotero_url : String
  title : String
  author : String
  saved_at : UtcDateTime
  published_date : Option UtcDateTime
deriving DecidableEq, Repr

/-- `map_row_to_paper` (`main.rs` 62–95).  `now` stands for the wall-clock
`Utc::now()` used as the fallback for an unparseable `dateAdded`. -/
def map_row_to_paper (now : UtcDateTime) (row : PaperRow) : Paper :=
  let paper_id := toString row.paperID
  let has_url :=
    match row.url with
    | some u => !u.isEmpty
    | none => false
  let source_url := row.url.getD ""
  let roam_ref := if has_url then source_url else "@zotero_" ++ paper_id
  { id := paper_id
    has_url := has_url
    roam_ref := roam_ref
    source_url := source_url
    zotero_url := row.zotero_uri
    title := row.title
    author := row.authors.getD ""
    saved_at := (parse_date row.dateAdded).getD now
    published_date := row.publication_date.bind (fun d => parse_date d) }

/-- The `HighlightJson` entity (`main.rs` 35–41). -/
structure HighlightJson where
  id : String
  content : String
  note : String
  note_saved_at : String
deriving DecidableEq, Repr

/-- One row of the highlights query (`query_highlights`, `main.rs` 164–182):
the five selected columns in order, already in the query's
`ORDER BY (parentItemID, sortIndex parts)` order. -/
structure HighlightRow where
  annotationID : Int
  highlight_text : Option String
  highlight_comment : Option String
  paperID : Int
  date_added : String
deriving DecidableEq, Repr

/-- The `HighlightJson` built from a (non-skipped) row
(`main.rs` 202–207). -/
def mkHighlightJson (r : HighlightRow) : HighlightJson :=
  { id := toString r.annotationID
    content := r.highlight_text.getD ""
    note := r.highlight_comment.getD ""
    note_saved_at := r.date_added }

/-- Association-list lookup, modelling `HashMap::get`. -/
def lookupKey {β : Type} : List (String × β) → String → Option β
  | [], _ => none
  | (k', v) :: rest, k => if k' = k then some v else lookupKey rest k

/-- `highlights_map.entry(k).or_insert_with(Vec::new).push(v)`
(`main.rs` 209–212) on the association-list model: append `v` to the list
stored under `k`, creating a singleton entry when `k` is absent. -/
def pushEntry (m : List (String × List HighlightJson)) (k : String)
    (v : HighlightJson) : List (String × List HighlightJson) :=
  match m with
  | [] => [(k, [v])]
  | (k', vs) :: rest =>
    if k' = k then (k', vs ++ [v]) :: rest else (k', vs) :: pushEntry rest k v

/-- The per-row step of `query_highlights` (`main.rs` 189–213): skip the row
when `highlight_text` is SQL NULL or trims to empty, otherwise push its
`HighlightJson` onto its paper's list. -/
def highlightsStep (m : List (String × List HighlightJson))
    (r : HighlightRow) : List (String × List HighlightJson) :=
  match r.highlight_text with
  | none => m
  | some t =>
    if trimL t.data = [] then m
    else pushEntry m (toString r.paperID) (mkHighlightJson r)

/-- `query_highlights` (`main.rs` 163–216) on the list of rows the query
returns: a single ordered scan building paper-id → ordered highlight list. -/
def query_highlights (rows : List HighlightRow) :
    List (String × List HighlightJson) :=
  rows.foldl highlightsStep []

/-! ## Reference Indexer: `get_existing_refs` (`main.rs` 218–251) -/

/-- The observable outcome of the `rg` child process at the point
`get_existing_refs` consumes it: either `Command::output()` itself returned
an `Err` (the process could not be spawned), or the process ran with the
given exit-status success flag, stdout and stderr.  `stdoutUtf8 = none`
models stdout bytes that are not valid UTF-8 (where
`String::from_utf8(..)?` fails). -/
inductive CmdOutcome where
  | spawnError (e : String)
  | ran (success : Bool) (stdoutUtf8 : Option String) (stderr : String)
deriving DecidableEq, Repr

/-- Rust `str::split_once(':')`: split at the first colon, or `none` when
there is no colon. -/
def splitOnceColon : List Char → Option (List Char × List Char)
  | [] => none
  | c :: rest =>
    if c = ':' then some ([], rest)
    else (splitOnceColon rest).map (fun p => (c :: p.1, p.2))

/-- The fixed token `":ROAM_REFS:"` stripped from the matched line
(`main.rs` 242). -/
def roamRefsToken : List Char :=
  [':', 'R', 'O', 'A', 'M', '_', 'R', 'E', 'F', 'S', ':']

/-- `HashMap::insert` on the association-list model: replace the value when
the key exists, otherwise add the pair. -/
def insertReplace (m : List (String × String)) (k v : String) :
    List (String × String) :=
  match m with
  | [] => [(k, v)]
  | (k', v') :: rest =>
    if k' = k then (k, v) :: rest else (k', v') :: insertReplace rest k v

/-- The per-line step of the ref-scan parse (`main.rs` 240–249): split the
`rg` output line at the first `':'` into filename and rest, strip the
`":ROAM_REFS:"` token from the rest, trim; insert only a non-empty tag. -/
def refsStep (m : List (String × String)) (line : List Char) :
    List (String × String) :=
  match splitOnceColon line with
  | none => m
  | some (filename, rest) =>
    if roamRefsToken.isPrefixOf rest then
      let trimmed_ref := trimL (rest.drop roamRefsToken.length)
      if trimmed_ref = [] then m else insertReplace m ⟨trimmed_ref⟩ ⟨filename⟩
    else m

/-- `get_existing_refs` (`main.rs` 218–251) as a function of the `rg`
outcome: a spawn failure or invalid-UTF-8 stdout propagates as an error
(the `?` operators); an unsuccessful exit status yields `Ok` with the empty
mapping after printing a warning; a successful run parses stdout line by
line into the tag → filename mapping. -/
def get_existing_refs (outcome : CmdOutcome) :
    Except String (List (String × String)) :=
  match outcome with
  | .spawnError e => .error e
  | .ran success stdoutUtf8 _ =>
    if !success then .ok []
    else
      match stdoutUtf8 with
      | none => .error "invalid utf-8 in rg output"
      | some out => .ok ((rustLinesL out.data).foldl refsStep [])

/-! ## Filename Synthesizer and duplicate titles (`main.rs` 253–296) -/

/-- `get_new_entry_filename` (`main.rs` 253–284).  The wall clock
(`Local::now()` already formatted as `%Y%m%d%H%M%S`), the `slug` crate's
`slugify` and the `md5` crate's hex digest are external collaborators,
passed in as parameters.  The slug is truncated to at most 100 characters
(the slug output is ASCII, so Rust's byte slice `[..100]` is a character
slice); when a non-empty URL is supplied, `-` plus the first 8 hex
characters of its digest is appended; `Path::join` inserts `/`.
First, the slug truncation (`main.rs` 256–260): at most 100 characters are
kept (the slug crate output is ASCII, so the byte slice `[..100]` is a
character slice). -/
def truncSlug (slug : String) : String :=
  if slug.length > 100 then ⟨slug.data.take 100⟩ else slug

/-- The first 8 hex characters of a digest (`main.rs` 264–266). -/
def hash8 (digest : String) : String :=
  ⟨digest.data.take 8⟩

/-- `get_new_entry_filename` continued: assemble the path. -/
def get_new_entry_filename (dir now : String) (slugify md5hex : String → String)
    (title : String) (url : Option String) : String :=
  let truncated_slug := truncSlug (slugify title)
  let maybe_url_part :=
    match url with
    | some u => if !u.isEmpty then "-" ++ hash8 (md5hex u) else ""
    | none => ""
  dir ++ "/" ++ now ++ "-" ++ truncated_slug ++ maybe_url_part ++ ".org"

/-- The number of documents of a batch bearing a given title (used to state
what "duplicate title" means). -/
def titleOccurrences (documents : List Paper) (t : String) : Nat :=
  (documents.filter (fun d => d.title == t)).length

/-- One `*title_counts.entry(title).or_default() += 1` step
(`main.rs` 289). -/
def bumpCount (m : List (String × Nat)) (k : String) : List (String × Nat) :=
  match m with
  | [] => [(k, 1)]
  | (k', c) :: rest =>
    if k' = k then (k', c + 1) :: rest else (k', c) :: bumpCount rest k

/-- The title-count map of `get_duplicate_titles` (`main.rs` 287–290). -/
def titleCounts (documents : List Paper) : List (String × Nat) :=
  documents.foldl (fun m d => bumpCount m d.title) []

/-- `get_duplicate_titles` (`main.rs` 286–296): the titles whose count
exceeds 1 (`HashMap` iteration order is arbitrary; only membership is ever
consumed, via `Vec::contains`). -/
def get_duplicate_titles (documents : List Paper) : List String :=
  ((titleCounts documents).filter (fun p => p.2 > 1)).map (fun p => p.1)

/-! ## Content Renderer and Reconciler (`main.rs` 298–338, 364–450) -/

/-- `generate_highlight_content` (`main.rs` 298–308): empty list renders as
empty text without calling the templating collaborator; otherwise delegate
to the external `tera.render("highlights.tera", ..)`, abstracted as
`renderH`. -/
def generate_highlight_content
    (renderH : List HighlightJson → Except String String)
    (highlights_with_notes : List HighlightJson) : Except String String :=
  if highlights_with_notes = [] then .ok "" else renderH highlights_with_notes

/-- `generate_file_content` (`main.rs` 310–338): builds the template context
(fresh uuid, paper fields, pre-rendered highlight content) and delegates to
the external `tera.render("document.org.tera", ..)`; the whole call is
abstracted as `renderDoc` applied to the paper and the highlight content. -/
def generate_file_content
    (renderDoc : Paper → String → Except String String)
    (document : Paper) (highlight_content : String) : Except String String :=
  renderDoc document highlight_content

/-- The external collaborators of the Reconciler's per-document loop:
the two template renderings and the success of the two filesystem
operations (`edit_file`'s read+write, `fs::write` for a fresh file), plus
the inputs of the Filename Synthesizer. -/
structure RunEnv where
  renderH : List HighlightJson → Except String String
  renderDoc : Paper → String → Except String String
  editOk : String → Bool
  writeOk : String → Bool
  dir : String
  now : String
  slugify : String → String
  md5hex : String → String

/-- The create-path filename choice (`main.rs` 416–428): a document whose
title is in the duplicate-title set is named with its URL as disambiguator
when it has one; every other document is named without a URL. -/
def choose_new_filename (env : RunEnv) (dups : List String) (paper : Paper) :
    String :=
  if dups.contains paper.title then
    get_new_entry_filename env.dir env.now env.slugify env.md5hex paper.title
      (if paper.has_url then some paper.source_url else none)
  else
    get_new_entry_filename env.dir env.now env.slugify env.md5hex paper.title none

/-- One iteration of the Reconciler loop (`main.rs` 402–441), threading the
`(files_created, files_edited)` counters.  Note the `?` on
`generate_highlight_content` (line 405): a highlight-render error is
returned from the loop body and aborts the whole run, unlike the edit /
document-render / write errors, which are caught per document and only
logged. -/
def process_paper (env : RunEnv) (existing_refs : List (String × String))
    (highlights_map : List (String × List HighlightJson)) (dups : List String)
    (counts : Nat × Nat) (paper : Paper) : Except String (Nat × Nat) := do
  let current_highlights := (lookupKey highlights_map paper.id).getD []
  let highlight_content_str ←
    generate_highlight_content env.renderH current_highlights
  match lookupKey existing_refs paper.roam_ref with
  | some filename =>
    if env.editOk filename then pure (counts.1, counts.2 + 1) else pure counts
  | none =>
    let filename := choose_new_filename env dups paper
    match generate_file_content env.renderDoc paper highlight_content_str with
    | .ok _content =>
      if env.writeOk filename then pure (counts.1 + 1, counts.2) else pure counts
    | .error _ => pure counts

/-- The reconciliation run (`main` from line 377 on): scan the existing
refs (propagating its error via `?`, line 378), build the highlights map
and the duplicate-title set, then fold the per-paper step over the batch
starting from zero counters. -/
def main_model (env : RunEnv) (scan : CmdOutcome) (papers : List Paper)
    (ann_rows : List HighlightRow) : Except String (Nat × Nat) := do
  let existing_refs ← get_existing_refs scan
  let highlights_map := query_highlights ann_rows
  let dups := get_duplicate_titles papers
  papers.foldlM
    (fun counts paper => process_paper env existing_refs highlights_map dups counts paper)
    (0, 0)

/-! ## Concrete sample inputs used by counterexamples and witnesses -/

/-- A sample timestamp standing in for `Utc::now()`. -/
def d2026 : UtcDateTime := ⟨2026, 1, 1, 0, 0, 0⟩

/-- A paper-query row with a NULL URL. -/
def rowNoUrl : PaperRow :=
  { paperID := 5, title := "Study A", url := none, dateAdded := "2026-01-02"
    zotero_uri := "zotero://select/items/0_AAAA", publication_date := none
    authors := none }

/-- A paper-query row with a non-empty URL. -/
def rowWithUrl : PaperRow :=
  { paperID := 6, title := "Study B", url := some "http://x"
    dateAdded := "2026-01-02", zotero_uri := "zotero://select/items/0_BBBB"
    publication_date := none, authors := some "A. Smith" }

/-- A sample paper without a URL (as `map_row_to_paper` would build it). -/
def paperOne : Paper :=
  { id := "1", has_url := false, roam_ref := "@zotero_1", source_url := ""
    zotero_url := "zotero://select/items/0_AAAA", title := "Study A"
    author := "A. Smith", saved_at := d2026, published_date := none }

/-- A second sample paper without a URL. -/
def paperTwo : Paper :=
  { id := "2", has_url := false, roam_ref := "@zotero_2", source_url := ""
    zotero_url := "zotero://select/items/0_BBBB", title := "Study B"
    author := "B. Jones", saved_at := d2026, published_date := none }

/-- One annotation row for `paperOne` with a non-empty excerpt. -/
def annRowOne : HighlightRow :=
  { annotationID := 10, highlight_text := some "a highlight"
    highlight_comment := none, paperID := 1, date_added := "2026-01-01" }

/-- A document titled "Foo" with a URL. -/
def paperFooUrl : Paper :=
  { id := "3", has_url := true, roam_ref := "http://x"
    source_url := "http://x", zotero_url := "zotero://select/items/0_CCCC"
    title := "Foo", author := "", saved_at := d2026, published_date := none }

/-- A document titled "Foo" without a URL. -/
def paperFooNoUrl : Paper :=
  { id := "4", has_url := false, roam_ref := "@zotero_4", source_url := ""
    zotero_url := "zotero://select/items/0_DDDD", title := "Foo"
    author := "", saved_at := d2026, published_date := none }

/-- An annotation row whose excerpt is whitespace-only. -/
def annRowEmpty : HighlightRow :=
  { annotationID := 11, highlight_text := some "   "
    highlight_comment := none, paperID := 1, date_added := "2026-01-01" }

/-- An environment whose highlights template rendering always fails, while
every other collaborator succeeds. -/
def envBrokenHighlights : RunEnv :=
  { renderH := fun _ => .error "highlights.tera: render failed"
    renderDoc := fun _ _ => .ok "document content"
    editOk := fun _ => true
    writeOk := fun _ => true
    dir := "notes", now := "20260101000000"
    slugify := fun s => s
    md5hex := fun _ => "0123456789abcdef0123456789abcdef" }

/-! # Theorems -/

/-! ## Line splitting and joining -/

theorem splitNl_eq (s : List Char) :
    splitNl s = (splitNlAux s).1 :: (splitNlAux s).2 := rfl

theorem splitNlAux_newline (s : List Char) :
    splitNlAux ('\n' :: s) = ([], (splitNlAux s).1 :: (splitNlAux s).2) := by
  simp [splitNlAux]

theorem splitNlAux_other {c : Char} (h : c ≠ '\n') (s : List Char) :
    splitNlAux (c :: s) = (c :: (splitNlAux s).1, (splitNlAux s).2) := by
  simp [splitNlAux, h]

theorem splitNl_newline (s : List Char) :
    splitNl ('\n' :: s) = [] :: splitNl s := by
  simp [splitNl, splitNlAux_newline]

theorem splitNl_other {c : Char} (h : c ≠ '\n') (s : List Char) :
    splitNl (c :: s) = (c :: (splitNlAux s).1) :: (splitNlAux s).2 := by
  simp [splitNl, splitNlAux_other h]

theorem nl_not_mem_of_mem_splitNl {s : List Char} :
    ∀ p ∈ splitNl s, '\n' ∉ p := by
  induction s with
  | nil => intro p hp; simp [splitNl, splitNlAux] at hp; simp [hp]
  | cons c t ih =>
    by_cases hc : c = '\n'
    · subst hc
      rw [splitNl_newline]
      intro p hp
      rcases List.mem_cons.mp hp with h | h
      · simp [h]
      · exact ih p h
    · rw [splitNl_other hc]
      intro p hp
      rcases List.mem_cons.mp hp with h | h
      · subst h
        intro hmem
        rcases List.mem_cons.mp hmem with h' | h'
        · exact hc h'.symm
        · exact ih _ (by rw [splitNl_eq]; exact List.mem_cons_self _ _) h'
      · exact ih p (by rw [splitNl_eq]; exact List.mem_cons_of_mem _ h)

theorem mem_of_mem_splitNl {s p : List Char} (hp : p ∈ splitNl s) :
    ∀ a ∈ p, a ∈ s := by
  induction s generalizing p with
  | nil =>
    simp [splitNl, splitNlAux] at hp
    simp [hp]
  | cons c t ih =>
    by_cases hc : c = '\n'
    · subst hc
      rw [splitNl_newline] at hp
      rcases List.mem_cons.mp hp with h | h
      · simp [h]
      · intro a ha
        exact List.mem_cons_of_mem _ (ih h a ha)
    · rw [splitNl_other hc] at hp
      rcases List.mem_cons.mp hp with h | h
      · subst h
        intro a ha
        rcases List.mem_cons.mp ha with h' | h'
        · simp [h']
        · exact List.mem_cons_of_mem _
            (ih (p := (splitNlAux t).1)
              (by rw [splitNl_eq]; exact List.mem_cons_self _ _) a h')
      · intro a ha
        exact List.mem_cons_of_mem _
          (ih (by rw [splitNl_eq]; exact List.mem_cons_of_mem _ h) a ha)

theorem joinNl_cons_of_ne_nil (l : List Char) {ls : List (List Char)}
    (h : ls ≠ []) : joinNl (l :: ls) = l ++ '\n' :: joinNl ls := by
  cases ls with
  | nil => exact absurd rfl h
  | cons a as => rfl

theorem joinNl_splitNl (s : List Char) : joinNl (splitNl s) = s := by
  induction s with
  | nil => rfl
  | cons c t ih =>
    by_cases hc : c = '\n'
    · subst hc
      rw [splitNl_newline, joinNl_cons_of_ne_nil _ (by rw [splitNl_eq]; simp),
        ih]
      rfl
    · rw [splitNl_other hc]
      have ht : joinNl (splitNl t) = t := ih
      rw [splitNl_eq] at ht
      rcases h2 : (splitNlAux t).2 with _ | ⟨a, as⟩
      · rw [h2] at ht
        show c :: (splitNlAux t).1 = c :: t
        rw [show joinNl [(splitNlAux t).1] = (splitNlAux t).1 from rfl] at ht
        rw [ht]
      · rw [h2] at ht
        rw [joinNl_cons_of_ne_nil _ (List.cons_ne_nil a as)] at ht ⊢
        rw [List.cons_append, ht]

theorem splitNl_append_newline {p : List Char} (hp : '\n' ∉ p)
    (t : List Char) : splitNl (p ++ '\n' :: t) = p :: splitNl t := by
  induction p with
  | nil => simpa using splitNl_newline t
  | cons c q ih =>
    have hc : c ≠ '\n' := fun h => hp (h ▸ List.mem_cons_self c q)
    have hq : '\n' ∉ q := fun h => hp (List.mem_cons_of_mem c h)
    rw [List.cons_append, splitNl_other hc]
    have h := ih hq
    rw [splitNl_eq (q ++ '\n' :: t)] at h
    injection h with h1 h2
    rw [h1, h2]

theorem splitNl_joinNl_append {P : List (List Char)}
    (hP : ∀ p ∈ P, '\n' ∉ p) (hne : P ≠ []) (t : List Char) :
    splitNl (joinNl P ++ '\n' :: t) = P ++ splitNl t := by
  induction P with
  | nil => exact absurd rfl hne
  | cons p Q ih =>
    cases Q with
    | nil =>
      simpa using splitNl_append_newline (hP p (List.mem_cons_self p [])) t
    | cons q Q' =>
      rw [joinNl_cons_of_ne_nil _ (List.cons_ne_nil q Q'), List.append_assoc,
        List.cons_append,
        splitNl_append_newline (hP p (List.mem_cons_self p _)) _,
        ih (fun x hx => hP x (List.mem_cons_of_mem p hx)) (List.cons_ne_nil q Q')]
      rfl

/-! ## `stripCr` and `rustLinesL` -/

theorem stripCr_of_cr_not_mem {l : List Char} (h : '\r' ∉ l) :
    stripCr l = l := by
  unfold stripCr
  rcases hl : l.getLast? with _ | c
  · simp
  · have hc : c ∈ l := List.mem_of_mem_getLast? hl
    have : ¬(some c = some '\r') := by
      intro he
      injection he with he
      exact h (he ▸ hc)
    simp [this]

theorem mem_splitNl_of_mem_rustLinesL {s l : List Char} (hcr : '\r' ∉ s)
    (hl : l ∈ rustLinesL s) : l ∈ splitNl s := by
  unfold rustLinesL at hl
  rcases List.mem_append.mp hl with h | h
  · obtain ⟨p, hp, hpe⟩ := List.mem_map.mp h
    have hps : p ∈ splitNl s := List.mem_of_mem_dropLast hp
    have : '\r' ∉ p := fun hr => hcr (mem_of_mem_splitNl hps '\r' hr)
    rw [← hpe, stripCr_of_cr_not_mem this]
    exact hps
  · rcases hg : (splitNl s).getLast? with _ | g
    · rw [hg] at h
      simp [lastSegment] at h
    · rw [hg] at h
      by_cases hgn : g = []
      · simp [lastSegment, hgn] at h
      · simp [lastSegment, hgn] at h
        exact h ▸ List.mem_of_mem_getLast? hg

theorem map_stripCr_id {P : List (List Char)} (h : ∀ p ∈ P, stripCr p = p) :
    P.map stripCr = P := by
  induction P with
  | nil => rfl
  | cons p Q ih =>
    rw [List.map_cons, h p (List.mem_cons_self p Q),
      ih fun x hx => h x (List.mem_cons_of_mem p hx)]

theorem rustLinesL_nil : rustLinesL [] = [] := rfl

theorem rustLinesL_joinNl_append {P : List (List Char)}
    (hnl : ∀ p ∈ P, '\n' ∉ p) (hcr : ∀ p ∈ P, stripCr p = p) (hne : P ≠ [])
    (t : List Char) :
    rustLinesL (joinNl P ++ '\n' :: t) = P ++ rustLinesL t := by
  unfold rustLinesL
  rw [splitNl_joinNl_append hnl hne t, splitNl_eq t,
    List.dropLast_append_of_ne_nil _ (List.cons_ne_nil _ _),
    List.map_append, map_stripCr_id hcr, List.getLast?_append,
    List.append_assoc]
  have hor : (((splitNlAux t).1 :: (splitNlAux t).2).getLast?).or P.getLast?
      = ((splitNlAux t).1 :: (splitNlAux t).2).getLast? := by
    rw [List.getLast?_eq_getLast _ (List.cons_ne_nil _ _)]
    rfl
  rw [hor]

theorem splitNl_getLast_ne_nil {s : List Char} (hs : s ≠ [])
    (hlast : s.getLast? ≠ some '\n') :
    ∀ g, (splitNl s).getLast? = some g → g ≠ [] := by
  induction s with
  | nil => exact absurd rfl hs
  | cons c t ih =>
    intro g hg
    cases t with
    | nil =>
      have hc : c ≠ '\n' := by
        intro h
        exact hlast (by simp [h])
      rw [splitNl_other hc] at hg
      simp [splitNlAux] at hg
      simp [← hg]
    | cons b t' =>
      have hlast' : (b :: t').getLast? ≠ some '\n' := by
        rwa [List.getLast?_cons_cons] at hlast
      by_cases hc : c = '\n'
      · subst hc
        rw [splitNl_newline, splitNl_eq, List.getLast?_cons_cons] at hg
        exact ih (List.cons_ne_nil b t') hlast' g (by rwa [splitNl_eq])
      · rw [splitNl_other hc] at hg
        rcases h2 : (splitNlAux (b :: t')).2 with _ | ⟨a, as⟩
        · rw [h2] at hg
          simp at hg
          simp [← hg]
        · rw [h2, List.getLast?_cons_cons] at hg
          apply ih (List.cons_ne_nil b t') hlast' g
          rw [splitNl_eq, h2, List.getLast?_cons_cons]
          exact hg

theorem rustLinesL_eq_splitNl {s : List Char} (hs : s ≠ [])
    (hlast : s.getLast? ≠ some '\n') (hcr : '\r' ∉ s) :
    rustLinesL s = splitNl s := by
  unfold rustLinesL
  have hne : splitNl s ≠ [] := by rw [splitNl_eq]; exact List.cons_ne_nil _ _
  rw [List.getLast?_eq_getLast _ hne]
  have hgl : (splitNl s).getLast hne ≠ [] :=
    splitNl_getLast_ne_nil hs hlast _ (List.getLast?_eq_getLast _ hne)
  simp only [lastSegment]
  rw [if_neg hgl]
  rw [map_stripCr_id]
  · exact List.dropLast_append_getLast hne
  · intro p hp
    exact stripCr_of_cr_not_mem fun hr =>
      hcr (mem_of_mem_splitNl (List.mem_of_mem_dropLast hp) '\r' hr)

theorem joinNl_rustLinesL {s : List Char} (hlast : s.getLast? ≠ some '\n')
    (hcr : '\r' ∉ s) : joinNl (rustLinesL s) = s := by
  rcases eq_or_ne s [] with h | h
  · subst h; rfl
  · rw [rustLinesL_eq_splitNl h hlast hcr, joinNl_splitNl]

/-! ## `List.findIdx` helpers -/

theorem pred_false_of_mem_take_findIdx {α : Type} (p : α → Bool) :
    ∀ (l : List α), ∀ x ∈ l.take (l.findIdx p), p x = false := by
  intro l
  induction l with
  | nil => intro x hx; simp at hx
  | cons a t ih =>
    intro x hx
    rw [List.findIdx_cons] at hx
    cases ha : p a
    · rw [ha, cond_false, List.take_succ_cons] at hx
      rcases List.mem_cons.mp hx with h | h
      · rw [h]; exact ha
      · exact ih x h
    · rw [ha, cond_true, List.take_zero] at hx
      simp at hx

theorem findIdx_append_of_all_false {α : Type} (p : α → Bool)
    {P : List α} (h : ∀ x ∈ P, p x = false) (L : List α) :
    (P ++ L).findIdx p = P.length + L.findIdx p := by
  induction P with
  | nil => simp
  | cons a t ih =>
    rw [List.cons_append, List.findIdx_cons, h a (List.mem_cons_self a t),
      cond_false, ih fun x hx => h x (List.mem_cons_of_mem a hx)]
    simp [Nat.succ_add, Nat.add_comm, Nat.add_left_comm]

theorem findIdx_cons_of_pred_true {α : Type} (p : α → Bool) {m : α}
    (hm : p m = true) (rest : List α) : (m :: rest).findIdx p = 0 := by
  rw [List.findIdx_cons, hm, cond_true]

/-! ## Core facts about the Section-Preserving Editor -/

/-- When no line of the file trims to the delimiter marker, `edit_file`
keeps every line as the user-content prefix: for carriage-return-free
content with no trailing newline the result is the original content, one
separating newline, and the new generated content. -/
theorem edit_fileL_no_marker (c h : List Char)
    (hnm : ∀ l ∈ rustLinesL c, trimL l ≠ highlight_marker)
    (hlast : c.getLast? ≠ some '\n') (hcr : '\r' ∉ c) :
    edit_fileL c h = if c = [] ∧ h = [] then [] else c ++ '\n' :: h := by
  simp only [edit_fileL]
  have hfalse : ∀ l ∈ rustLinesL c, (trimL l == highlight_marker) = false :=
    fun l hl => beq_eq_false_iff_ne.mpr (hnm l hl)
  have hidx : (rustLinesL c).findIdx (fun l => trimL l == highlight_marker)
      = (rustLinesL c).length := List.findIdx_eq_length.mpr hfalse
  rw [hidx, List.take_length, joinNl_rustLinesL hlast hcr]
  by_cases hc : c = []
  · subst hc
    by_cases hh : h = []
    · subst hh
      simp
    · simp [hh]
  · rw [if_pos (Or.inl hc), if_neg (by rintro ⟨h1, _⟩; exact hc h1),
      List.append_assoc, List.singleton_append]

/-- Running `edit_file` twice with the same generated content is idempotent
provided the file is carriage-return free and the generated content is
empty or starts with a line trimming to the delimiter marker. -/
theorem edit_fileL_idem (c h : List Char) (hcr : '\r' ∉ c)
    (hh : h = [] ∨ ∃ m ms, rustLinesL h = m :: ms ∧ trimL m = highlight_marker) :
    edit_fileL (edit_fileL c h) h = edit_fileL c h := by
  have hPfalse : ∀ x ∈ (rustLinesL c).take
      ((rustLinesL c).findIdx (fun l => trimL l == highlight_marker)),
      (trimL x == highlight_marker) = false :=
    pred_false_of_mem_take_findIdx _ (rustLinesL c)
  have hPsub : ∀ x ∈ (rustLinesL c).take
      ((rustLinesL c).findIdx (fun l => trimL l == highlight_marker)),
      x ∈ splitNl c :=
    fun x hx => mem_splitNl_of_mem_rustLinesL hcr (List.take_subset _ _ hx)
  have hPnl : ∀ x ∈ (rustLinesL c).take
      ((rustLinesL c).findIdx (fun l => trimL l == highlight_marker)),
      '\n' ∉ x :=
    fun x hx => nl_not_mem_of_mem_splitNl x (hPsub x hx)
  have hPcr : ∀ x ∈ (rustLinesL c).take
      ((rustLinesL c).findIdx (fun l => trimL l == highlight_marker)),
      stripCr x = x :=
    fun x hx => stripCr_of_cr_not_mem
      (fun hr => hcr (mem_of_mem_splitNl (hPsub x hx) '\r' hr))
  rcases hh with hh | ⟨m, ms, hlines, hm⟩
  · subst hh
    by_cases hpre : joinNl ((rustLinesL c).take
        ((rustLinesL c).findIdx (fun l => trimL l == highlight_marker))) = []
    · have h1 : edit_fileL c [] = [] := by
        simp only [edit_fileL]
        rw [if_neg (by simp [hpre]), hpre]
        rfl
      rw [h1]
      rfl
    · have hPne : (rustLinesL c).take
          ((rustLinesL c).findIdx (fun l => trimL l == highlight_marker)) ≠ [] := by
        intro hP
        exact hpre (by rw [hP]; rfl)
      have h1 : edit_fileL c [] = joinNl ((rustLinesL c).take
          ((rustLinesL c).findIdx (fun l => trimL l == highlight_marker))) ++ ['\n'] := by
        simp only [edit_fileL]
        rw [if_pos (Or.inl hpre), List.append_nil]
      rw [h1]
      simp only [edit_fileL]
      have hlr : rustLinesL (joinNl ((rustLinesL c).take
          ((rustLinesL c).findIdx (fun l => trimL l == highlight_marker))) ++ ['\n'])
          = (rustLinesL c).take
            ((rustLinesL c).findIdx (fun l => trimL l == highlight_marker)) := by
        rw [show (['\n'] : List Char) = '\n' :: [] from rfl,
          rustLinesL_joinNl_append hPnl hPcr hPne [], rustLinesL_nil,
          List.append_nil]
      rw [hlr, List.findIdx_eq_length.mpr hPfalse, List.take_length,
        if_pos (Or.inl hpre), List.append_nil]
  · have hne : h ≠ [] := by
      intro h0
      subst h0
      rw [rustLinesL_nil] at hlines
      exact List.cons_ne_nil _ _ hlines.symm
    obtain ⟨Q, hQne, hQnl, hQcr, hQfalse, hQjoin⟩ :
        ∃ Q, Q ≠ [] ∧ (∀ x ∈ Q, '\n' ∉ x) ∧ (∀ x ∈ Q, stripCr x = x) ∧
          (∀ x ∈ Q, (trimL x == highlight_marker) = false) ∧
          joinNl Q = joinNl ((rustLinesL c).take
            ((rustLinesL c).findIdx (fun l => trimL l == highlight_marker))) := by
      by_cases hP : (rustLinesL c).take
          ((rustLinesL c).findIdx (fun l => trimL l == highlight_marker)) = []
      · refine ⟨[[]], by simp, by simp, ?_, ?_, by rw [hP]; rfl⟩
        · intro x hx
          rw [List.mem_singleton.mp hx]
          rfl
        · intro x hx
          rw [List.mem_singleton.mp hx]
          rfl
      · exact ⟨_, hP, hPnl, hPcr, hPfalse, rfl⟩
    have h1 : edit_fileL c h = joinNl Q ++ '\n' :: h := by
      simp only [edit_fileL]
      rw [if_pos (Or.inr hne), hQjoin, List.append_assoc, List.singleton_append]
    rw [h1]
    simp only [edit_fileL]
    have hlr : rustLinesL (joinNl Q ++ '\n' :: h) = Q ++ m :: ms := by
      rw [rustLinesL_joinNl_append hQnl hQcr hQne h, hlines]
    have hpm : (trimL m == highlight_marker) = true := beq_iff_eq.mpr hm
    have hidx : (Q ++ m :: ms).findIdx (fun l => trimL l == highlight_marker)
        = Q.length := by
      rw [findIdx_append_of_all_false _ hQfalse (m :: ms),
        findIdx_cons_of_pred_true (fun l => trimL l == highlight_marker) hpm ms,
        Nat.add_zero]
    rw [hlr, hidx, List.take_left, hQjoin, if_pos (Or.inr hne),
      List.append_assoc, List.singleton_append, ← hQjoin]

/-! ## Claim C4: the worked delimiter example -/

/-- C4, counterexample: editing the file `"A\nB\n* zotero:highlights\nOLD"`
with new generated content `"NEW"` does not produce the claimed
`"A\nB\n\nNEW"`: the editor inserts a single newline after the joined
prefix, not a blank line. -/
theorem edit_file_example_ne_claimed_output :
    edit_file "A\nB\n* zotero:highlights\nOLD" "NEW" ≠ "A\nB\n\nNEW" := by
  decide

/-- C4, amended: editing the file `"A\nB\n* zotero:highlights\nOLD"` with new
generated content `"NEW"` yields `"A\nB\nNEW"`: the prefix `"A\nB"` strictly
before the delimiter line is kept verbatim and only text at and after the
delimiter line changes. -/
theorem edit_file_example_output :
    edit_file "A\nB\n* zotero:highlights\nOLD" "NEW" = "A\nB\nNEW" := by
  decide

/-! ## Claim C2: behaviour when the delimiter marker is absent -/

/-- C2, counterexample: on a file `"A\nB"` containing no delimiter line, the
result of editing with `"NEW"` is `"A\nB\nNEW"`, not `"NEW"`: the prior
content survives, refuting the claim that the prefix is treated as empty and
the file is fully replaced. -/
theorem edit_file_no_marker_keeps_prior_content :
    edit_file "A\nB" "NEW" = "A\nB\nNEW" ∧ edit_file "A\nB" "NEW" ≠ "NEW" := by
  decide

/-- C2, amended: when no line of the file trims to the delimiter marker, the
`position(..).unwrap_or(lines.len())` fallback treats **all** lines as the
user-content prefix, so the prior content survives: for a file with no
carriage returns and no trailing newline the result is exactly the prior
content, one separating newline, and the new generated content (and the
empty file with empty new content stays empty). -/
theorem edit_file_absent_marker_appends (c h : String)
    (hnm : ∀ l ∈ rustLinesL c.data, trimL l ≠ highlight_marker)
    (hlast : c.data.getLast? ≠ some '\n') (hcr : '\r' ∉ c.data) :
    edit_file c h = if c = "" ∧ h = "" then "" else c ++ "\n" ++ h := by
  have hd := edit_fileL_no_marker c.data h.data hnm hlast hcr
  unfold edit_file
  rw [hd]
  have hiff : (c.data = [] ∧ h.data = []) ↔ (c = "" ∧ h = "") := by
    constructor
    · rintro ⟨h1, h2⟩
      exact ⟨String.ext h1, String.ext h2⟩
    · rintro ⟨h1, h2⟩
      subst h1
      subst h2
      exact ⟨rfl, rfl⟩
  by_cases hb : c = "" ∧ h = ""
  · rw [if_pos (hiff.mpr hb), if_pos hb]
  · rw [if_neg (fun hx => hb (hiff.mp hx)), if_neg hb]
    apply String.ext
    show c.data ++ '\n' :: h.data = (c ++ "\n" ++ h).data
    rw [show (c ++ "\n" ++ h).data = c.data ++ ['\n'] ++ h.data from rfl,
      List.append_assoc]
    rfl

/-- C2, witness for the amended theorem at a concrete input. -/
theorem edit_file_absent_marker_appends_witness :
    edit_file "A\nB" "NEW" = "A\nB" ++ "\n" ++ "NEW" := by
  have h := edit_file_absent_marker_appends "A\nB" "NEW" (by decide) (by decide)
    (by decide)
  rw [if_neg (by decide)] at h
  exact h

/-! ## Claim C6: idempotence of re-editing -/

/-- C6, counterexample: for generated content that does not itself contain
the delimiter marker, a second identical run appends the content again:
editing `"A"` with `"X"` gives `"A\nX"`, but editing the result with `"X"`
again gives `"A\nX\nX"`, so the editor is not idempotent for every file and
every rendered content. -/
theorem edit_file_twice_appends_again :
    edit_file "A" "X" = "A\nX" ∧
    edit_file (edit_file "A" "X") "X" = "A\nX\nX" ∧
    edit_file (edit_file "A" "X") "X" ≠ edit_file "A" "X" := by
  decide

/-- C6, amended: re-running the editor with identical rendered content is
idempotent for every carriage-return-free file whenever the rendered content
is empty or its first line trims to the delimiter marker (the shape the
rendered highlights section has); without the marker in the content, the
second run appends it again (see the counterexample). -/
theorem edit_file_idem_of_marker_content (c h : String) (hcr : '\r' ∉ c.data)
    (hh : h = "" ∨ ∃ m ms, rustLinesL h.data = m :: ms ∧ trimL m = highlight_marker) :
    edit_file (edit_file c h) h = edit_file c h := by
  have hh2 : h.data = [] ∨
      ∃ m ms, rustLinesL h.data = m :: ms ∧ trimL m = highlight_marker := by
    rcases hh with h0 | h0
    · left
      rw [h0]
    · right
      exact h0
  exact congrArg String.mk (edit_fileL_idem c.data h.data hcr hh2)

/-- C6, witness for the amended theorem at a concrete input. -/
theorem edit_file_idem_of_marker_content_witness :
    edit_file (edit_file "user notes" "* zotero:highlights\n- hl")
        "* zotero:highlights\n- hl"
      = edit_file "user notes" "* zotero:highlights\n- hl" :=
  edit_file_idem_of_marker_content "user notes" "* zotero:highlights\n- hl"
    (by decide)
    (Or.inr ⟨"* zotero:highlights".data, ["- hl".data], by decide, by decide⟩)

/-! ## Claim C3: the reference tag (`roam_ref`) -/

/-- Helper: a row with an absent or empty URL maps to a paper whose
reference tag is the synthetic `"@zotero_" ++ id`. -/
theorem roam_ref_of_no_url (now : UtcDateTime) (row : PaperRow)
    (hu : row.url = none ∨ row.url = some "") :
    (map_row_to_paper now row).roam_ref
        = "@zotero_" ++ (map_row_to_paper now row).id ∧
    (map_row_to_paper now row).id = toString row.paperID ∧
    (map_row_to_paper now row).has_url = false := by
  have hemp : ("" : String).isEmpty = true := rfl
  rcases hu with hu | hu <;> simp [map_row_to_paper, hu, hemp]

/-- Helper: appending to a fixed string on the left is injective. -/
theorem string_append_cancel_left {s a b : String} (h : s ++ a = s ++ b) :
    a = b := by
  apply String.ext
  have hd : s.data ++ a.data = s.data ++ b.data := congrArg String.data h
  exact List.append_cancel_left hd

/-- C3, counterexample: the row with id 5 and no URL gets the reference tag
`"@zotero_5"`, which differs from the claimed `"ref_" ++ id = "ref_5"`. -/
theorem synthetic_tag_is_zotero_not_ref :
    (map_row_to_paper d2026 rowNoUrl).roam_ref = "@zotero_5" ∧
    (map_row_to_paper d2026 rowNoUrl).roam_ref
      ≠ "ref_" ++ (map_row_to_paper d2026 rowNoUrl).id := by
  decide

/-- C3, amended: for every extracted document, if its URL is absent or empty
then its reference tag equals `"@zotero_"` (the code's actual synthetic
prefix, not the claimed `"ref_"`) concatenated with the document's id, and
this synthetic-tag construction is injective over document ids; if its URL
is non-empty then its reference tag equals that URL. -/
theorem roam_ref_synthetic_tag (now : UtcDateTime) (row : PaperRow) :
    ((row.url = none ∨ row.url = some "") →
      (map_row_to_paper now row).roam_ref
        = "@zotero_" ++ (map_row_to_paper now row).id) ∧
    (∀ u, row.url = some u → u ≠ "" →
      (map_row_to_paper now row).roam_ref = u) ∧
    (∀ (now2 : UtcDateTime) (row2 : PaperRow),
      (row.url = none ∨ row.url = some "") →
      (row2.url = none ∨ row2.url = some "") →
      (map_row_to_paper now row).roam_ref = (map_row_to_paper now2 row2).roam_ref →
      (map_row_to_paper now row).id = (map_row_to_paper now2 row2).id) := by
  refine ⟨fun hu => (roam_ref_of_no_url now row hu).1, ?_, ?_⟩
  · intro u hu hne
    have hie : u.isEmpty = false := by
      cases he : u.isEmpty
      · rfl
      · exact absurd ((String.isEmpty_iff u).mp he) hne
    simp [map_row_to_paper, hu, hie]
  · intro now2 row2 h1 h2 heq
    have e1 := roam_ref_of_no_url now row h1
    have e2 := roam_ref_of_no_url now2 row2 h2
    rw [e1.1, e2.1] at heq
    exact string_append_cancel_left heq

/-- C3, witness for the amended theorem at a concrete input. -/
theorem roam_ref_synthetic_tag_witness :
    (map_row_to_paper d2026 rowWithUrl).roam_ref = "http://x" :=
  (roam_ref_synthetic_tag d2026 rowWithUrl).2.1 "http://x" rfl (by decide)

/-! ## Claims C5 and C10: the Reference Indexer -/

/-- Helper: inserting under key `k` leaves lookups of other keys
unchanged. -/
theorem lookupKey_insertReplace_ne (m : List (String × String)) (k v k2 : String)
    (h : k2 ≠ k) : lookupKey (insertReplace m k v) k2 = lookupKey m k2 := by
  induction m with
  | nil => simp [insertReplace, lookupKey, Ne.symm h]
  | cons pair rest ih =>
    obtain ⟨k1, v1⟩ := pair
    by_cases h1 : k1 = k
    · subst h1
      simp [insertReplace, lookupKey, Ne.symm h]
    · by_cases h2 : k1 = k2 <;> simp [insertReplace, lookupKey, h1, h2, ih, h]

/-- Helper: the ref-scan parse never creates an entry under the empty
tag. -/
theorem refs_foldl_no_empty_key (lines : List (List Char))
    (m : List (String × String)) (h : lookupKey m "" = none) :
    lookupKey (lines.foldl refsStep m) "" = none := by
  induction lines generalizing m with
  | nil => exact h
  | cons line rest ih =>
    apply ih
    cases hsp : splitOnceColon line with
    | none =>
      simp only [refsStep, hsp]
      exact h
    | some p =>
      obtain ⟨filename, restL⟩ := p
      simp only [refsStep, hsp]
      by_cases hb : roamRefsToken.isPrefixOf restL
      · rw [if_pos hb]
        by_cases ht : trimL (restL.drop roamRefsToken.length) = []
        · rw [if_pos ht]
          exact h
        · have hne : ("" : String) ≠ ⟨trimL (restL.drop roamRefsToken.length)⟩ := by
            intro he
            apply ht
            have hd := congrArg String.data he
            exact hd.symm
          rw [if_neg ht, lookupKey_insertReplace_ne _ _ _ _ hne]
          exact h
      · rw [if_neg hb]
        exact h

/-- C10: whenever the indexer returns a mapping (any `Ok` outcome), the
empty string is not one of its keys — a marker line whose tag trims to
nothing contributes no entry. -/
theorem existing_refs_no_empty_key (outcome : CmdOutcome)
    (m : List (String × String)) (h : get_existing_refs outcome = Except.ok m) :
    lookupKey m "" = none := by
  cases outcome with
  | spawnError e => exact absurd h (by simp [get_existing_refs])
  | ran success so se =>
    cases success with
    | false =>
      have h2 : Except.ok (ε := String) ([] : List (String × String))
          = Except.ok m := h
      injection h2 with h2
      rw [← h2]
      rfl
    | true =>
      cases so with
      | none => exact absurd h (by simp [get_existing_refs])
      | some out =>
        have h2 : Except.ok (ε := String)
            ((rustLinesL out.data).foldl refsStep []) = Except.ok m := h
        injection h2 with h2
        rw [← h2]
        exact refs_foldl_no_empty_key _ [] rfl

/-- C10, witness at a concrete scan output. -/
theorem existing_refs_no_empty_key_witness :
    lookupKey [("http://x", "f.org")] "" = none :=
  existing_refs_no_empty_key
    (CmdOutcome.ran true (some "f.org::ROAM_REFS: http://x") "")
    [("http://x", "f.org")] rfl

/-- C5, counterexample: when the scanning process cannot be executed at all
(`Command::output()` returns `Err`), `get_existing_refs` does not return an
empty mapping — the error propagates through the `?` operators and the run
aborts before any document is processed. -/
theorem scan_spawn_error_aborts :
    get_existing_refs (CmdOutcome.spawnError "rg: command not found")
      = Except.error "rg: command not found" ∧
    main_model envBrokenHighlights (CmdOutcome.spawnError "rg: command not found")
      [paperOne] [] = Except.error "rg: command not found" :=
  ⟨rfl, rfl⟩

/-- C5, amended: only an *unsuccessful exit status* of the scanning tool
(which with `rg` includes the zero-match case) degrades to an empty mapping
with a logged warning, after which the run continues treating every document
as new; a failure to execute the tool (spawn error, and likewise non-UTF-8
output) propagates as an error and aborts the run. -/
theorem scan_failure_behaviour :
    (∀ (so : Option String) (se : String),
      get_existing_refs (CmdOutcome.ran false so se) = Except.ok []) ∧
    (∀ e, get_existing_refs (CmdOutcome.spawnError e) = Except.error e) ∧
    (∀ env papers ann_rows e,
      main_model env (CmdOutcome.spawnError e) papers ann_rows = Except.error e) ∧
    (∀ env (papers : List Paper) (ann_rows : List HighlightRow)
        (so : Option String) (se : String),
      main_model env (CmdOutcome.ran false so se) papers ann_rows
        = papers.foldlM
            (fun counts paper =>
              process_paper env [] (query_highlights ann_rows)
                (get_duplicate_titles papers) counts paper) (0, 0)) :=
  ⟨fun _ _ => rfl, fun _ => rfl, fun _ _ _ _ => rfl, fun _ _ _ _ _ => rfl⟩

/-! ## Claim C1: highlight-render failures abort the run -/

/-- C1: exhibit of the code's behaviour at the failing input — with a
highlights template that fails to render, a batch of two documents (the
first having one non-empty annotation) makes the whole run return the
render error: the `?` on `generate_highlight_content` (`main.rs` 405)
propagates out of the per-document loop, so the error is neither caught,
counted, nor skipped, and the second document is never processed —
contradicting the claim (and spec §4.4/§7), which make render errors
per-document recoverable. -/
theorem run_aborts_on_highlight_render_error :
    main_model envBrokenHighlights (CmdOutcome.ran false none "")
      [paperOne, paperTwo] [annRowOne]
      = Except.error "highlights.tera: render failed" := by
  rfl

/-! ## Claims C7 and C9: annotation filtering in `query_highlights` -/

/-- Helper: pushing under key `k` appends to `k`'s list (creating a
singleton entry when absent). -/
theorem lookupKey_pushEntry_self (m : List (String × List HighlightJson))
    (k : String) (v : HighlightJson) :
    lookupKey (pushEntry m k v) k = some ((lookupKey m k).getD [] ++ [v]) := by
  induction m with
  | nil => simp [pushEntry, lookupKey]
  | cons pair rest ih =>
    obtain ⟨k1, vs⟩ := pair
    by_cases h1 : k1 = k <;> simp [pushEntry, lookupKey, h1, ih]

/-- Helper: pushing under key `k` leaves other keys unchanged. -/
theorem lookupKey_pushEntry_ne (m : List (String × List HighlightJson))
    (k : String) (v : HighlightJson) (k2 : String) (h : k2 ≠ k) :
    lookupKey (pushEntry m k v) k2 = lookupKey m k2 := by
  induction m with
  | nil => simp [pushEntry, lookupKey, Ne.symm h]
  | cons pair rest ih =>
    obtain ⟨k1, vs⟩ := pair
    by_cases h1 : k1 = k
    · subst h1
      simp [pushEntry, lookupKey, Ne.symm h]
    · by_cases h2 : k1 = k2 <;> simp [pushEntry, lookupKey, h1, h2, ih, h]

/-- Helper: every highlight stored by the scan has non-empty trimmed
content. -/
theorem highlights_foldl_content_nonempty (rows : List HighlightRow)
    (m : List (String × List HighlightJson))
    (hm : ∀ k l, lookupKey m k = some l → ∀ j ∈ l, trimL j.content.data ≠ []) :
    ∀ k l, lookupKey (rows.foldl highlightsStep m) k = some l →
      ∀ j ∈ l, trimL j.content.data ≠ [] := by
  induction rows generalizing m with
  | nil => exact hm
  | cons r rest ih =>
    rw [List.foldl_cons]
    apply ih
    intro k l hl j hj
    cases hr : r.highlight_text with
    | none =>
      simp only [highlightsStep, hr] at hl
      exact hm k l hl j hj
    | some t =>
      simp only [highlightsStep, hr] at hl
      by_cases ht : trimL t.data = []
      · rw [if_pos ht] at hl
        exact hm k l hl j hj
      · rw [if_neg ht] at hl
        by_cases hk : k = toString r.paperID
        · subst hk
          rw [lookupKey_pushEntry_self] at hl
          injection hl with hl
          rw [← hl] at hj
          rcases List.mem_append.mp hj with hj2 | hj2
          · cases hlk : lookupKey m (toString r.paperID) with
            | none => rw [hlk] at hj2; cases hj2
            | some l0 =>
              rw [hlk] at hj2
              exact hm _ l0 hlk j hj2
          · rw [List.mem_singleton.mp hj2]
            have : (mkHighlightJson r).content = t := by
              simp [mkHighlightJson, hr]
            rw [this]
            exact ht
        · rw [lookupKey_pushEntry_ne _ _ _ _ hk] at hl
          exact hm k l hl j hj

/-- Helper: entries present in the accumulator persist through the scan. -/
theorem highlights_foldl_persists (rows : List HighlightRow) (k : String)
    (j : HighlightJson) :
    ∀ (m : List (String × List HighlightJson)) (l : List HighlightJson),
      lookupKey m k = some l → j ∈ l →
      ∃ l2, lookupKey (rows.foldl highlightsStep m) k = some l2 ∧ j ∈ l2 := by
  induction rows with
  | nil => exact fun m l hl hj => ⟨l, hl, hj⟩
  | cons r rest ih =>
    intro m l hl hj
    rw [List.foldl_cons]
    cases hr : r.highlight_text with
    | none =>
      simp only [highlightsStep, hr]
      exact ih m l hl hj
    | some t =>
      simp only [highlightsStep, hr]
      by_cases ht : trimL t.data = []
      · rw [if_pos ht]
        exact ih m l hl hj
      · rw [if_neg ht]
        by_cases hk : k = toString r.paperID
        · subst hk
          refine ih _ (l ++ [mkHighlightJson r]) ?_ (List.mem_append_left _ hj)
          rw [lookupKey_pushEntry_self, hl]
          rfl
        · refine ih _ l ?_ hj
          rw [lookupKey_pushEntry_ne _ _ _ _ hk]
          exact hl

/-- Helper: a row with non-empty trimmed excerpt ends up in its paper's
list. -/
theorem highlights_foldl_mem (r : HighlightRow) (t : String)
    (hr : r.highlight_text = some t) (ht : trimL t.data ≠ []) :
    ∀ (rows : List HighlightRow) (m : List (String × List HighlightJson)),
      r ∈ rows →
      ∃ l, lookupKey (rows.foldl highlightsStep m) (toString r.paperID) = some l ∧
        mkHighlightJson r ∈ l := by
  intro rows
  induction rows with
  | nil => intro m hmem; cases hmem
  | cons r0 rest ih =>
    intro m hmem
    rw [List.foldl_cons]
    rcases List.mem_cons.mp hmem with he | hmem2
    · subst he
      simp only [highlightsStep, hr]
      rw [if_neg ht]
      exact highlights_foldl_persists rest _ _ _ _
        (lookupKey_pushEntry_self m (toString r.paperID) (mkHighlightJson r))
        (List.mem_append_right _ (List.mem_singleton.mpr rfl))
    · exact ih _ hmem2

/-- C7: an annotation row whose excerpt is SQL NULL, empty or
whitespace-only never appears in its document's list (every stored
highlight has non-empty trimmed content), while a row with a non-empty
excerpt and an absent note is kept, with its note equal to the empty
string. -/
theorem query_highlights_filtering (rows : List HighlightRow) :
    (∀ k l, lookupKey (query_highlights rows) k = some l →
      ∀ j ∈ l, trimL j.content.data ≠ []) ∧
    (∀ r ∈ rows, ∀ t, r.highlight_text = some t → trimL t.data ≠ [] →
      r.highlight_comment = none →
      ∃ l, lookupKey (query_highlights rows) (toString r.paperID) = some l ∧
        mkHighlightJson r ∈ l ∧ (mkHighlightJson r).note = "") := by
  constructor
  · exact highlights_foldl_content_nonempty rows [] (fun k l h => nomatch h)
  · intro r hmem t hr ht hc
    obtain ⟨l, hl, hjl⟩ := highlights_foldl_mem r t hr ht rows [] hmem
    refine ⟨l, hl, hjl, ?_⟩
    simp [mkHighlightJson, hc]

/-- C7, witness at a concrete row (non-empty excerpt, absent note). -/
theorem query_highlights_filtering_witness :
    ∃ l, lookupKey (query_highlights [annRowOne]) (toString annRowOne.paperID)
        = some l ∧
      mkHighlightJson annRowOne ∈ l ∧ (mkHighlightJson annRowOne).note = "" :=
  (query_highlights_filtering [annRowOne]).2 annRowOne
    (List.mem_singleton.mpr rfl) "a highlight" rfl (by decide) rfl

/-- Helper: all stored per-paper lists are non-empty. -/
theorem highlights_foldl_values_nonempty (rows : List HighlightRow)
    (m : List (String × List HighlightJson))
    (hm : ∀ k l, lookupKey m k = some l → l ≠ []) :
    ∀ k l, lookupKey (rows.foldl highlightsStep m) k = some l → l ≠ [] := by
  induction rows generalizing m with
  | nil => exact hm
  | cons r rest ih =>
    rw [List.foldl_cons]
    apply ih
    intro k l hl
    cases hr : r.highlight_text with
    | none =>
      simp only [highlightsStep, hr] at hl
      exact hm k l hl
    | some t =>
      simp only [highlightsStep, hr] at hl
      by_cases ht : trimL t.data = []
      · rw [if_pos ht] at hl
        exact hm k l hl
      · rw [if_neg ht] at hl
        by_cases hk : k = toString r.paperID
        · subst hk
          rw [lookupKey_pushEntry_self] at hl
          injection hl with hl
          rw [← hl]
          simp
        · rw [lookupKey_pushEntry_ne _ _ _ _ hk] at hl
          exact hm k l hl

/-- Helper: a paper id none of whose rows survive the excerpt filter gets
no map entry. -/
theorem highlights_foldl_no_entry (pid : String) :
    ∀ (rows : List HighlightRow) (m : List (String × List HighlightJson)),
      lookupKey m pid = none →
      (∀ r ∈ rows, toString r.paperID = pid →
        r.highlight_text = none ∨ trimL ((r.highlight_text).getD "").data = []) →
      lookupKey (rows.foldl highlightsStep m) pid = none := by
  intro rows
  induction rows with
  | nil => exact fun m h0 _ => h0
  | cons r rest ih =>
    intro m h0 hall
    rw [List.foldl_cons]
    have hall2 : ∀ r2 ∈ rest, toString r2.paperID = pid →
        r2.highlight_text = none ∨ trimL ((r2.highlight_text).getD "").data = [] :=
      fun r2 h2 => hall r2 (List.mem_cons_of_mem r h2)
    cases hr : r.highlight_text with
    | none =>
      simp only [highlightsStep, hr]
      exact ih m h0 hall2
    | some t =>
      simp only [highlightsStep, hr]
      by_cases ht : trimL t.data = []
      · rw [if_pos ht]
        exact ih m h0 hall2
      · rw [if_neg ht]
        have hkey : toString r.paperID ≠ pid := by
          intro hk
          rcases hall r (List.mem_cons_self r rest) hk with h1 | h1
          · rw [hr] at h1
            cases h1
          · rw [hr] at h1
            exact ht h1
        apply ih _ _ hall2
        rw [lookupKey_pushEntry_ne _ _ _ _ (Ne.symm hkey)]
        exact h0

/-- C9: every per-document list in the mapping built by `query_highlights`
is non-empty, and a document all of whose rows have NULL, empty or
whitespace-only excerpts has no entry at all in the mapping. -/
theorem query_highlights_entries_nonempty (rows : List HighlightRow) :
    (∀ k l, lookupKey (query_highlights rows) k = some l → l ≠ []) ∧
    (∀ pid, (∀ r ∈ rows, toString r.paperID = pid →
        r.highlight_text = none ∨ trimL ((r.highlight_text).getD "").data = []) →
      lookupKey (query_highlights rows) pid = none) := by
  constructor
  · exact highlights_foldl_values_nonempty rows [] (fun k l h => nomatch h)
  · intro pid hall
    exact highlights_foldl_no_entry pid rows [] rfl hall

/-- C9, witness: a paper whose only row is whitespace-only gets no entry. -/
theorem query_highlights_entries_nonempty_witness :
    lookupKey (query_highlights [annRowEmpty]) "1" = none :=
  (query_highlights_entries_nonempty [annRowEmpty]).2 "1" (by decide)


/-! ## Claim C8: duplicate-title handling in the create path -/

/-- Helper: bumping a title count returns one more than the previous count
for that title. -/
theorem lookupKey_bumpCount_self (m : List (String × Nat)) (k : String) :
    lookupKey (bumpCount m k) k = some ((lookupKey m k).getD 0 + 1) := by
  induction m with
  | nil => simp [bumpCount, lookupKey]
  | cons pair rest ih =>
    obtain ⟨k1, c⟩ := pair
    by_cases h1 : k1 = k <;> simp [bumpCount, lookupKey, h1, ih]

/-- Helper: bumping a title count leaves other titles unchanged. -/
theorem lookupKey_bumpCount_ne (m : List (String × Nat)) (k k2 : String)
    (h : k2 ≠ k) : lookupKey (bumpCount m k) k2 = lookupKey m k2 := by
  induction m with
  | nil => simp [bumpCount, lookupKey, Ne.symm h]
  | cons pair rest ih =>
    obtain ⟨k1, c⟩ := pair
    by_cases h1 : k1 = k
    · subst h1
      simp [bumpCount, lookupKey, Ne.symm h]
    · by_cases h2 : k1 = k2 <;> simp [bumpCount, lookupKey, h1, h2, ih, h]

/-- Helper: the keys after a bump are the old keys, plus the new one when it
was absent. -/
theorem map_fst_bumpCount (m : List (String × Nat)) (k : String) :
    (bumpCount m k).map Prod.fst
      = if k ∈ m.map Prod.fst then m.map Prod.fst else m.map Prod.fst ++ [k] := by
  induction m with
  | nil => simp [bumpCount]
  | cons pair rest ih =>
    obtain ⟨k1, c⟩ := pair
    by_cases h1 : k1 = k
    · subst h1
      simp [bumpCount]
    · by_cases h2 : k ∈ rest.map Prod.fst <;>
        simp [bumpCount, h1, ih, h2, Ne.symm h1]

/-- Helper: bumping preserves distinctness of the keys. -/
theorem nodup_keys_bumpCount (m : List (String × Nat)) (k : String)
    (h : (m.map Prod.fst).Nodup) : ((bumpCount m k).map Prod.fst).Nodup := by
  rw [map_fst_bumpCount]
  by_cases hk : k ∈ m.map Prod.fst
  · rwa [if_pos hk]
  · rw [if_neg hk]
    rw [List.nodup_append]
    exact ⟨h, List.nodup_singleton k,
      fun a ha hb => hk ((List.mem_singleton.mp hb) ▸ ha)⟩

/-- Helper: the title-count map has pairwise-distinct keys. -/
theorem nodup_keys_titleCounts (docs : List Paper) :
    ∀ (m : List (String × Nat)), (m.map Prod.fst).Nodup →
      ((docs.foldl (fun m d => bumpCount m d.title) m).map Prod.fst).Nodup := by
  induction docs with
  | nil => exact fun m h => h
  | cons d ds ih =>
    intro m h
    rw [List.foldl_cons]
    exact ih _ (nodup_keys_bumpCount m d.title h)

/-- Helper: in a map with distinct keys, membership determines the
lookup. -/
theorem lookupKey_of_mem {β : Type} {m : List (String × β)} {k : String}
    {v : β} (hnd : (m.map Prod.fst).Nodup) (hm : (k, v) ∈ m) :
    lookupKey m k = some v := by
  induction m with
  | nil => cases hm
  | cons pair rest ih =>
    obtain ⟨k1, v1⟩ := pair
    rw [List.map_cons, List.nodup_cons] at hnd
    rcases List.mem_cons.mp hm with he | hm2
    · injection he with he1 he2
      subst he1
      subst he2
      simp [lookupKey]
    · have hk : k1 ≠ k := by
        intro h1
        subst h1
        exact hnd.1 (List.mem_map.mpr ⟨(k1, v), hm2, rfl⟩)
      simp only [lookupKey, if_neg hk]
      exact ih hnd.2 hm2

/-- Helper: the count stored for a title is its number of occurrences. -/
theorem lookupKey_titleCountsAux (docs : List Paper) :
    ∀ (m : List (String × Nat)) (t : String),
      (lookupKey (docs.foldl (fun m d => bumpCount m d.title) m) t).getD 0
        = (lookupKey m t).getD 0 + titleOccurrences docs t := by
  induction docs with
  | nil => simp [titleOccurrences]
  | cons d ds ih =>
    intro m t
    rw [List.foldl_cons, ih]
    have hocc : titleOccurrences (d :: ds) t
        = (if d.title = t then 1 else 0) + titleOccurrences ds t := by
      by_cases hd : d.title = t <;>
        simp [titleOccurrences, List.filter_cons, hd, Nat.add_comm]
    rw [hocc]
    by_cases hd : d.title = t
    · subst hd
      rw [lookupKey_bumpCount_self]
      simp [Nat.add_comm, Nat.add_assoc, Nat.add_left_comm]
    · rw [lookupKey_bumpCount_ne _ _ _ (fun he => hd he.symm), if_neg hd]
      simp

/-- Helper: a member of the duplicate-title set occurs at least twice in the
batch. -/
theorem mem_duplicate_titles_two_le (docs : List Paper) (t : String)
    (h : t ∈ get_duplicate_titles docs) : 2 ≤ titleOccurrences docs t := by
  unfold get_duplicate_titles at h
  obtain ⟨⟨t2, c⟩, hmem, hfst⟩ := List.mem_map.mp h
  obtain ⟨hmem2, hgt⟩ := List.mem_filter.mp hmem
  have ht2 : t2 = t := hfst
  rw [ht2] at hmem2
  have hnd := nodup_keys_titleCounts docs [] (by simp)
  have hlk : lookupKey (titleCounts docs) t = some c :=
    lookupKey_of_mem hnd hmem2
  have hcount := lookupKey_titleCountsAux docs [] t
  rw [show titleCounts docs
      = docs.foldl (fun m d => bumpCount m d.title) [] from rfl] at hlk
  rw [hlk] at hcount
  have hc : 1 < c := by simpa using hgt
  have h0 : (lookupKey ([] : List (String × Nat)) t).getD 0 = 0 := rfl
  rw [h0] at hcount
  simp only [Option.getD_some] at hcount
  omega

/-- C8: in a batch of exactly two documents sharing a title, neither
matching an existing note, the create path names the one with a non-empty
URL with the 8-hex-character hash suffix of its URL, and the one without a
URL with the plain timestamp-plus-slug name; a document whose title occurs
at most once in the batch is always named without a hash suffix. -/
theorem duplicate_title_filename_choice (env : RunEnv) (p1 p2 : Paper)
    (T u : String) (h1 : p1.title = T) (h2 : p2.title = T)
    (hu1 : p1.has_url = true) (hsu : p1.source_url = u) (hne : u ≠ "")
    (hu2 : p2.has_url = false) :
    choose_new_filename env (get_duplicate_titles [p1, p2]) p1
      = env.dir ++ "/" ++ env.now ++ "-" ++ truncSlug (env.slugify T)
        ++ ("-" ++ hash8 (env.md5hex u)) ++ ".org" ∧
    choose_new_filename env (get_duplicate_titles [p1, p2]) p2
      = env.dir ++ "/" ++ env.now ++ "-" ++ truncSlug (env.slugify T)
        ++ "" ++ ".org" ∧
    (∀ (papers : List Paper) (q : Paper),
      titleOccurrences papers q.title ≤ 1 →
      choose_new_filename env (get_duplicate_titles papers) q
        = env.dir ++ "/" ++ env.now ++ "-" ++ truncSlug (env.slugify q.title)
          ++ "" ++ ".org") := by
  have hdup : get_duplicate_titles [p1, p2] = [T] := by
    subst h1
    simp [get_duplicate_titles, titleCounts, bumpCount, lookupKey, h2]
  have hie : u.isEmpty = false := by
    cases he : u.isEmpty
    · rfl
    · exact absurd ((String.isEmpty_iff u).mp he) hne
  refine ⟨?_, ?_, ?_⟩
  · rw [choose_new_filename, hdup]
    rw [if_pos (by simp [List.contains, h1]), hu1]
    simp only [if_pos rfl]
    simp [get_new_entry_filename, hsu, hie, h1]
  · rw [choose_new_filename, hdup]
    rw [if_pos (by simp [List.contains, h2]), hu2]
    simp [get_new_entry_filename, h2]
  · intro papers q hocc
    rw [choose_new_filename]
    rw [if_neg ?_]
    · simp [get_new_entry_filename]
    · intro hmem
      have := mem_duplicate_titles_two_le papers q.title (by simpa using hmem)
      omega

/-- C8, witness at concrete documents titled `"Foo"`. -/
theorem duplicate_title_filename_choice_witness :
    choose_new_filename envBrokenHighlights
        (get_duplicate_titles [paperFooUrl, paperFooNoUrl]) paperFooUrl
      = "notes" ++ "/" ++ "20260101000000" ++ "-" ++ truncSlug "Foo"
        ++ ("-" ++ hash8 "0123456789abcdef0123456789abcdef") ++ ".org" :=
  (duplicate_title_filename_choice envBrokenHighlights paperFooUrl paperFooNoUrl
    "Foo" "http://x" rfl rfl rfl rfl (by decide) rfl).1

end OrgZotero
